import Mathlib

/-!
Verification of the Callisto spectrometer daemon (BINGO-PB/CallistoSpectrometer).

This file gives a shallow embedding, in Lean 4, of the core pure logic of the
daemon: the serial-protocol constants, the hex-data decode step of the
acquisition loop, the message-frame extraction helper, the acquisition state
machine, the start-recording handshake guard, the TCP control-protocol command
handler, the data-writer matrix/axis construction, the output-file rotation
rule, and the scheduler loop.  Each definition is translated from the Python
source (package callisto, runtime.py / infrastructure/writers.py /
application/control.py); theorems below settle the specified properties.

Modelling conventions:
* Python str values are embedded as List Char; bytes buffers as List Nat
  (each element in 0..255).
* Python int is Int (arbitrary precision); timestamps in microseconds are Int.
* Python float frequencies are embedded as rationals; no claim depends on
  float rounding of frequency values.
* Side effects (serial writes, thread spawns, file writes) are reified as
  explicit action or event lists returned by the embedded functions.
-/

namespace Callisto

/-! ### Protocol constants (callisto/constants.py) -/

def MESSAGE_START : Char := '$'
def MESSAGE_END : Char := '\r'
def DATA_START : Char := '2'
def DATA_END : Char := '&'
def EEPROM_READY : Char := ']'
def ID_RESPONSE : List Char := "$CRX:Stopped\r".toList

def STOPPED : Nat := 0
def STOPPING : Nat := 1
def STARTING : Nat := 2
def RUNNING : Nat := 3
def OVERVIEW : Nat := 4

/-! ### Python primitives used by the source

The serial backend delivers one character per received byte (chr(b) with
b in 0..255, see infrastructure/serial_backend.py), so every character the
decoder sees is in the Latin-1 range.  isPySpace is the set of Latin-1
code points for which Python str.isspace holds; Python str.strip and the
truthiness test ch.strip() used in the acquisition loop are defined from it.
-/

def isPySpace (c : Char) : Bool :=
  let n := c.toNat
  (9 ≤ n && n ≤ 13) || (28 ≤ n && n ≤ 32) || n == 133 || n == 160

/-- Python str.strip: drop leading and trailing whitespace. -/
def pyStrip (s : List Char) : List Char :=
  ((s.dropWhile isPySpace).reverse.dropWhile isPySpace).reverse

def isHexDigitCh (c : Char) : Bool :=
  (decide ('0' ≤ c) && decide (c ≤ '9')) ||
  (decide ('a' ≤ c) && decide (c ≤ 'f')) ||
  (decide ('A' ≤ c) && decide (c ≤ 'F'))

def hexDigitVal (c : Char) : Nat :=
  if '0' ≤ c ∧ c ≤ '9' then c.toNat - '0'.toNat
  else if 'a' ≤ c ∧ c ≤ 'f' then c.toNat - 'a'.toNat + 10
  else if 'A' ≤ c ∧ c ≤ 'F' then c.toNat - 'A'.toNat + 10
  else 0

/-- Continuation of a CPython base-16 digit run after a digit was read:
underscores must be single and followed by a further hex digit. -/
def hexRunRest : List Char → Bool
  | [] => true
  | '_' :: rest =>
    match rest with
    | [] => false
    | c :: rest2 => isHexDigitCh c && hexRunRest (c :: rest2)
  | c :: rest => isHexDigitCh c && hexRunRest rest

/-- A valid CPython base-16 digit run: nonempty, starts with a hex digit,
underscores only between digits. -/
def hexRunOk : List Char → Bool
  | [] => false
  | c :: rest => isHexDigitCh c && hexRunRest rest

/-- After a 0x / 0X prefix CPython additionally allows one underscore
before the first digit. -/
def hexRunAfterPr : List Char → Bool
  | '_' :: rest => hexRunOk rest
  | l => hexRunOk l

/-- Numeric value of a digit run, ignoring the grouping underscores. -/
def hexRunVal (l : List Char) : Nat :=
  (l.filter isHexDigitCh).foldl (fun acc c => 16 * acc + hexDigitVal c) 0

/-- Magnitude part of CPython int(s, 16): an optional 0x / 0X prefix
followed by a digit run. -/
def pyHexMagnitude : List Char → Option Nat
  | '0' :: 'x' :: rest => if hexRunAfterPr rest then some (hexRunVal rest) else none
  | '0' :: 'X' :: rest => if hexRunAfterPr rest then some (hexRunVal rest) else none
  | l => if hexRunOk l then some (hexRunVal l) else none

/-- CPython int(s, 16): optional surrounding whitespace, optional sign,
optional 0x prefix, then hex digits with single grouping underscores.
Returns none exactly when CPython raises ValueError. -/
def pyIntBase16 (s : List Char) : Option Int :=
  let t := pyStrip s
  match t with
  | '+' :: r => (pyHexMagnitude r).map (fun n => (n : Int))
  | '-' :: r => (pyHexMagnitude r).map (fun n => -(n : Int))
  | r => (pyHexMagnitude r).map (fun n => (n : Int))

/-- Python expression (value >> 2) & 0xFF on an arbitrary-precision int:
arithmetic right shift is floor division by 4, and the low-byte mask is the
nonnegative remainder modulo 256. -/
def byteOfVal (v : Int) : Nat := ((Int.fdiv v 4).emod 256).toNat

/-! ### Hex-data decoding (runtime.py, _flush_data inside _acquisition_loop) -/

/-- Contribution of one 4-character group: parse failures and the 0x2323
end-marker artifact contribute nothing; every other value contributes the
single byte (value >> 2) & 0xFF. -/
def groupStep (g : List Char) : List Nat :=
  match pyIntBase16 g with
  | none => []
  | some v => if v = 0x2323 then [] else [byteOfVal v]

/-- The decode loop of _flush_data: walk the hex buffer in complete
4-character groups (for i in range(0, (len(text)//4)*4, 4)), appending each
group contribution; a trailing partial group is never visited. -/
def decodeHexGroups : List Char → List Nat
  | a :: b :: c :: d :: rest => groupStep [a, b, c, d] ++ decodeHexGroups rest
  | _ => []

/-- _flush_data result: none when nothing is written (empty hex buffer, or
decoded output buffer empty), otherwise the byte buffer handed to the
writer. -/
def flushData (hexChars : List Char) : Option (List Nat) :=
  if hexChars = [] then none
  else
    let buf := decodeHexGroups hexChars
    if buf = [] then none else some buf

/-! ### Message-frame extraction (runtime.py, _PythonDaemon._extract_frames)

The Python helper is a loop over the characters with state (inside, buf,
frames); extractLoop is its direct translation and extractFrames the entry
point.  specFrames below is a second definition written from the words of the
specification (substrings between unmatched-aware MESSAGE_START/MESSAGE_END
pairs, in input order, trailing unterminated span dropped), to be compared
with the translated one.
-/

def extractLoop : List Char → Bool → List Char → List (List Char) → List (List Char)
  | [], _, _, frames => frames
  | ch :: rest, inside, buf, frames =>
    if ch = MESSAGE_START then extractLoop rest true [] frames
    else if ch = MESSAGE_END ∧ inside then extractLoop rest false [] (frames ++ [buf])
    else if inside then extractLoop rest inside (buf ++ [ch]) frames
    else extractLoop rest inside buf frames

def extractFrames (text : List Char) : List (List Char) :=
  extractLoop text false [] []

mutual

/-- Spec-worded frame list, scanning outside any span: a MESSAGE_START opens
a span, everything else outside a span contributes nothing. -/
def specFramesClosed : List Char → List (List Char)
  | [] => []
  | c :: rest =>
    if c = MESSAGE_START then specFramesOpen rest [] else specFramesClosed rest

/-- Spec-worded frame list inside an open span with accumulated content acc:
a MESSAGE_END closes the pair and emits the substring; a further
MESSAGE_START leaves the earlier start unmatched and opens a fresh span; a
span still open at the end of the input contributes no frame. -/
def specFramesOpen : List Char → List Char → List (List Char)
  | [], _ => []
  | c :: rest, acc =>
    if c = MESSAGE_END then acc :: specFramesClosed rest
    else if c = MESSAGE_START then specFramesOpen rest []
    else specFramesOpen rest (acc ++ [c])

end

/-! ### Acquisition state machine (runtime.py, _acquisition_loop)

One iteration of the acquisition loop body, for one character read from the
serial queue.  The branch order mirrors the source exactly: message end,
message start, in-message accumulation, EEPROM-ready skip, data start, data
end (decode-and-flush), in-data accumulation of non-whitespace characters,
and the fallthrough protocol warning.  Emitted firmware messages and flushed
data frames are returned as events; nowUs is the current get_usecs() clock
value.

The in-message accumulation branch of the source reads
len(message) < MAX_MESSAGE, but the module neither imports MAX_MESSAGE from
callisto.constants nor defines it (its inline comment says the value is
still to be defined), so evaluating that comparison raises an uncaught
NameError and the acquisition thread dies: any character received while
in_message other than MESSAGE_END crashes the loop.  The step function
returns an Option, with none for that uncaught-exception outcome.
-/

inductive AcqEvent where
  | message (msg : List Char)
  | dataFrame (buf : List Nat) (tsUs : Int)
deriving Repr, DecidableEq

structure AcqState where
  inMessage : Bool
  inData : Bool
  message : List Char
  hexChars : List Char
  dataStartTs : Option Int
deriving Repr, DecidableEq

def acqStep (s : AcqState) (ch : Char) (nowUs : Int) :
    Option (AcqState × List AcqEvent) :=
  if s.inMessage ∧ ch = MESSAGE_END then
    some ({ s with inMessage := false, message := [] }, [AcqEvent.message s.message])
  else if ¬s.inMessage ∧ ch = MESSAGE_START then
    some ({ s with inMessage := true, message := [] }, [])
  else if s.inMessage then
    -- len(message) < MAX_MESSAGE with MAX_MESSAGE unbound: NameError.
    none
  else if ch = EEPROM_READY then some (s, [])
  else if ¬s.inData ∧ ch = DATA_START then
    some ({ s with inData := true, hexChars := [], dataStartTs := some nowUs }, [])
  else if s.inData ∧ ch = DATA_END then
    match flushData s.hexChars with
    | none => some ({ s with inData := false, dataStartTs := none }, [])
    | some buf =>
      -- Python: ts_us = data_start_ts_us or get_usecs(); a stored 0 is falsy.
      let ts : Int :=
        match s.dataStartTs with
        | some t => if t ≠ 0 then t else nowUs
        | none => nowUs
      some ({ s with inData := false, hexChars := [], dataStartTs := none },
        [AcqEvent.dataFrame buf ts])
  else if s.inData then
    some (if ¬isPySpace ch then { s with hexChars := s.hexChars ++ [ch] } else s, [])
  else some (s, [])

/-! ### Start-recording guard and handshake (runtime.py, start_recording /
_serial_handshake)

The handshake polls read_char until the deadline, appending each received
character to seen and stopping as soon as the accumulated text ends with
ID_RESPONSE.  Its decision is a pure function of the characters received
within the window, embedded here as handshakeGotResponse; start_recording is
embedded as a transition on the daemon run state with the performed serial
actions reified in order.
-/

def handshakeScan (seen : List Char) : List Char → Bool
  | [] => false
  | c :: rest =>
    let seen2 := seen ++ [c]
    if ID_RESPONSE.isSuffixOf seen2 then true else handshakeScan seen2 rest

def handshakeGotResponse (chars : List Char) : Bool :=
  handshakeScan [] chars

inductive SerialAction where
  | openPort
  | handshake
  | closePort
  | spawnAcquisition
deriving Repr, DecidableEq

/-- start_recording: no-op when already RUNNING; abort on serial open
failure; on a failed handshake close the port and keep the current state;
otherwise spawn the acquisition thread and move to RUNNING.  openOk is the
result of _open_serial and chars the characters received during the
handshake window. -/
def startRecording (state : Nat) (openOk : Bool) (chars : List Char) :
    Nat × List SerialAction :=
  if state = RUNNING then (state, [])
  else if ¬openOk then (state, [SerialAction.openPort])
  else if ¬handshakeGotResponse chars then
    (state, [SerialAction.openPort, SerialAction.handshake, SerialAction.closePort])
  else
    (RUNNING, [SerialAction.openPort, SerialAction.handshake,
               SerialAction.spawnAcquisition])

/-! ### Control protocol (application/control.py, process_client_command)

The handler lowercases the stripped line and walks a fixed command table.
Callback side effects are reified as a call list; ovContOk is the Bool
returned by the on_overview_continuous callback.  The Python handler reaches
str.lower on text decoded with ascii errors=ignore (runtime.py,
_handle_client), so lowercasing is embedded at ASCII scope.
-/

def asciiLowerCh (c : Char) : Char :=
  if 'A' ≤ c ∧ c ≤ 'Z' then Char.ofNat (c.toNat + 32) else c

def asciiLower (s : List Char) : List Char := s.map asciiLowerCh

inductive CtlCall where
  | start
  | stop
  | overviewOnce
  | overviewCont
  | overviewOff
deriving Repr, DecidableEq

def processClientCommand (line : List Char) (ovContOk : Bool) :
    Option (List Char) × List CtlCall :=
  let cmd := asciiLower (pyStrip line)
  if cmd = [] then (some "OK\n\n".toList, [])
  else if cmd = "quit".toList then (none, [])
  else if cmd = "start".toList then
    (some "OK starting new FITS file\n\n".toList, [CtlCall.start])
  else if cmd = "stop".toList then
    (some "OK stopping\n\n".toList, [CtlCall.stop])
  else if cmd = "overview".toList then
    (some "OK starting spectral overview\n\n".toList, [CtlCall.overviewOnce])
  else if cmd = "overview-continuous".toList ∨ cmd = "overview-cont".toList then
    if ¬ovContOk then
      (some "ERROR HDF5 backend unavailable (install python3-h5py)\n\n".toList,
       [CtlCall.overviewCont])
    else
      (some "OK starting continuous spectral overview in HDF5 (window=filetime)\n\n".toList,
       [CtlCall.overviewCont])
  else if cmd = "overview-stop".toList ∨ cmd = "overview-off".toList then
    (some "OK stopping continuous spectral overview\n\n".toList, [CtlCall.overviewOff])
  else if cmd = "get".toList then
    (some "ERROR no data (yet)\n\n".toList, [])
  else
    (some ("ERROR unrecognized command (".toList ++ cmd ++ ")\n\n".toList), [])

/-! ### Data-writer matrix and axes (infrastructure/writers.py,
DataWriterEngine._build_matrix_and_axes)

The raw byte buffer is reshaped into a sweeps-by-channels matrix.  The
channel count is the frequency-table length when the table is non-empty
(max(1, len) in the source, equal to len there), otherwise the configured
channel count clamped to a minimum of 1.  The per-sweep timestamp step is
int(1_000_000 / max(1, samplerate)); for positive integer operands of this
size the float division truncates to exactly the integer floor quotient, so
the step is embedded as Euclidean division.
-/

def chunksOfFuel (n : Nat) : Nat → List α → List (List α)
  | _, [] => []
  | 0, _ :: _ => []
  | fuel + 1, a :: l => (a :: l).take n :: chunksOfFuel n fuel ((a :: l).drop n)

/-- numpy reshape into rows of n entries, written as repeated take/drop;
only reached with 0 < n and n dividing the list length. -/
def chunksOf (n : Nat) (l : List α) : List (List α) :=
  if n = 0 then [] else chunksOfFuel n l.length l

def channelCount (freqTable : List ℚ) (nchannels : Int) : Nat :=
  if freqTable = [] then (max 1 nchannels).toNat else max 1 freqTable.length

def buildMatrixAndAxes (freqTable : List ℚ) (nchannels samplerate : Int)
    (buf : List Nat) (tsUs : Int) :
    List (List Nat) × List ℚ × List Int :=
  let nchan := channelCount freqTable nchannels
  let matrix :=
    if buf.length < nchan then [buf]
    else chunksOf nchan (buf.take (buf.length / nchan * nchan))
  let usedNchan := if buf.length < nchan then buf.length else nchan
  let freqs := (List.range usedNchan).map
    (fun i => if h : i < freqTable.length then freqTable.get ⟨i, h⟩ else (i : ℚ))
  let nsweeps := matrix.length
  let stepUs := (1000000 : Int) / max 1 samplerate
  let timestamps := (List.range nsweeps).map
    (fun (i : Nat) => tsUs + (i : Int) * stepUs)
  (matrix, freqs, timestamps)

/-! ### Output-file rotation and overview persistence
(infrastructure/writers.py, _fits_rotate_if_needed /
_overview_hdf5_rotate_if_needed / save_overview_hdf5)

A rotation state is the current path, its start timestamp and the
per-process sequence counter.  A generated file name embeds the UTC second
of its timestamp (strftime of fromtimestamp(ts_us / 1e6)); two paths differ
exactly when those seconds differ, so a path is modelled by that second.
The rotation test divides the elapsed microseconds by 1e6 with Python float
true division and compares against max(1, filetime); the division is
embedded exactly over the rationals.
-/

structure RotState where
  path : Option Int
  start : Int
  seq : Nat
deriving Repr, DecidableEq

def fitsNewPath (tsUs : Int) : Int := tsUs / 1000000

def fitsRotateIfNeeded (filetime : Int) (s : RotState) (tsUs : Int) : RotState :=
  if s.path = none ∨ s.start ≤ 0 then
    { s with start := tsUs, path := some (fitsNewPath tsUs) }
  else if ((tsUs : ℚ) - (s.start : ℚ)) / 1000000 ≥ (max 1 filetime : Int) then
    { s with start := tsUs, path := some (fitsNewPath tsUs) }
  else s

structure OVSItem where
  freq : ℚ
  value : Int
deriving Repr, DecidableEq

structure OverviewWrite where
  path : Int
  row : List ℚ
  freqs : List ℚ
  tsUs : Int
deriving Repr, DecidableEq

/-- save_overview_hdf5: an empty point set returns immediately (no file, no
rotation-state change); otherwise the overview rotation state is advanced
if due and one group is stored: a single matrix row of the point values, a
frequency axis from the points, and a single timestamp. -/
def saveOverviewHdf5 (filetime : Int) (s : RotState) (points : List OVSItem)
    (tsEpoch : Int) : RotState × Option OverviewWrite :=
  if points = [] then (s, none)
  else
    let tsUs := tsEpoch * 1000000
    let s2 := fitsRotateIfNeeded filetime s tsUs
    ({ s2 with seq := s2.seq + 1 },
     some { path := (s2.path).getD 0,
            row := points.map (fun p => (p.value : ℚ)),
            freqs := points.map (fun p => p.freq),
            tsUs := tsUs })

/-! ### Scheduler loop (runtime.py, _scheduler_loop)

Entries are modelled by their time-of-day field t (seconds since midnight),
the only field the firing test consults; applied is the set of indices
already fired, modelled as the list of its elements.  Each check cycle reads
the clock (seconds since UTC midnight) and fires, in list order, every entry
not yet applied whose t has been reached.  schedRun runs the loop over a
finite list of per-cycle clock readings and returns the indices fired, in
firing order.
-/

def schedCycle (ts : List Nat) (applied : List Nat) (tsec : Nat) : List Nat :=
  (List.range ts.length).filter
    (fun i => decide (i ∉ applied) && decide (ts.getD i 0 ≤ tsec))

def schedRun (ts : List Nat) : List Nat → List Nat → List Nat
  | _, [] => []
  | applied, c :: cs =>
    let fired := schedCycle ts applied c
    fired ++ schedRun ts (applied ++ fired) cs

/-! ## Theorems -/

/-! ### C4: frame extraction -/

theorem extractLoop_eq_spec (text : List Char) :
    (∀ frames, extractLoop text false [] frames = frames ++ specFramesClosed text) ∧
    (∀ buf frames, extractLoop text true buf frames =
      frames ++ specFramesOpen text buf) := by
  induction text with
  | nil => simp [extractLoop, specFramesClosed, specFramesOpen]
  | cons c rest ih =>
    have hse : MESSAGE_START ≠ MESSAGE_END := by decide
    constructor
    · intro frames
      by_cases hs : c = MESSAGE_START
      · subst hs
        simp [extractLoop, specFramesClosed, ih.2]
      · simp [extractLoop, specFramesClosed, hs, ih.1]
    · intro buf frames
      by_cases hs : c = MESSAGE_START
      · subst hs
        simp [extractLoop, specFramesOpen, hse, hse.symm, ih.2]
      · by_cases he : c = MESSAGE_END
        · subst he
          simp [extractLoop, specFramesOpen, hs, ih.1]
        · simp [extractLoop, specFramesOpen, hs, he, ih.2]

/-- C4: for every character stream, the frames extracted by the pure
frame-extraction helper are exactly the substrings between unmatched-aware
MESSAGE_START/MESSAGE_END pairs, in input order, and a trailing span opened
by MESSAGE_START but never closed contributes no frame (specFramesClosed /
specFramesOpen are written directly from that description, with an open
trailing span returning nothing). -/
theorem extract_frames_spec (text : List Char) :
    extractFrames text = specFramesClosed text := by
  simpa using (extractLoop_eq_spec text).1 []

/-! ### C3: IN_DATA character handling -/

/-- C3 counterexample: with the state machine inside a data span, the
EEPROM_READY character is discarded (the step succeeds with the state
unchanged) rather than appended verbatim to the hex buffer, contradicting
the claim that only DATA_END is special-cased while IN_DATA. -/
theorem acq_in_data_counterexample :
    ¬ (Option.map (fun r => r.1.hexChars)
        (acqStep ⟨false, true, [], [], some 5⟩ EEPROM_READY 0) =
      some ((⟨false, true, [], [], some 5⟩ : AcqState).hexChars ++
        [EEPROM_READY])) := by
  decide

/-- C3 amended: while the acquisition state machine is in a data span (and
not inside a message), a non-whitespace character other than MESSAGE_START,
EEPROM_READY and DATA_END is appended verbatim to the hex buffer; the two
additional special cases are MESSAGE_START, which switches to the message
state with the hex buffer untouched, and EEPROM_READY, which is discarded
with the whole state unchanged.  Once the message state is entered, any
further character other than MESSAGE_END reaches the comparison against the
unbound name MAX_MESSAGE, so it raises NameError and kills the acquisition
loop instead of accumulating. -/
theorem acq_in_data_amended (s : AcqState) (ch : Char) (nowUs : Int)
    (hd : s.inData = true) (hm : s.inMessage = false)
    (hw : isPySpace ch = false) :
    (ch ≠ MESSAGE_START → ch ≠ EEPROM_READY → ch ≠ DATA_END →
      acqStep s ch nowUs = some ({ s with hexChars := s.hexChars ++ [ch] }, [])) ∧
    (ch = MESSAGE_START →
      acqStep s ch nowUs = some ({ s with inMessage := true, message := [] }, [])) ∧
    (ch = EEPROM_READY → acqStep s ch nowUs = some (s, [])) ∧
    (∀ (s2 : AcqState) (ch2 : Char), s2.inMessage = true → ch2 ≠ MESSAGE_END →
      acqStep s2 ch2 nowUs = none) := by
  refine ⟨fun h1 h2 h3 => ?_, fun h1 => ?_, fun h1 => ?_, fun s2 ch2 hm2 he2 => ?_⟩
  · simp [acqStep, hd, hm, hw, h1, h2, h3]
  · have he : ch ≠ MESSAGE_END := by rw [h1]; decide
    simp [acqStep, hd, hm, h1, he]
  · subst h1
    simp [acqStep, hd, hm, EEPROM_READY, MESSAGE_END, MESSAGE_START]
  · simp [acqStep, hm2, he2]

theorem acq_in_data_amended_witness :
    acqStep ⟨false, true, ['A'], ['B'], none⟩ 'C' 0 =
      some (⟨false, true, ['A'], ['B', 'C'], none⟩, []) ∧
    acqStep ⟨false, true, ['A'], ['B'], none⟩ '$' 0 =
      some (⟨true, true, [], ['B'], none⟩, []) ∧
    acqStep ⟨false, true, ['A'], ['B'], none⟩ ']' 0 =
      some (⟨false, true, ['A'], ['B'], none⟩, []) ∧
    acqStep ⟨true, true, [], ['B'], none⟩ 'X' 0 = none := by
  refine ⟨?_, ?_, ?_, ?_⟩
  · exact (acq_in_data_amended ⟨false, true, ['A'], ['B'], none⟩ 'C' 0 rfl rfl
      (by decide)).1 (by decide) (by decide) (by decide)
  · exact (acq_in_data_amended ⟨false, true, ['A'], ['B'], none⟩ '$' 0 rfl rfl
      (by decide)).2.1 rfl
  · exact (acq_in_data_amended ⟨false, true, ['A'], ['B'], none⟩ ']' 0 rfl rfl
      (by decide)).2.2.1 rfl
  · exact (acq_in_data_amended ⟨false, true, ['A'], ['B'], none⟩ ']' 0 rfl rfl
      (by decide)).2.2.2 ⟨true, true, [], ['B'], none⟩ 'X' rfl (by decide)

/-! ### C6: start-recording handshake guard -/

/-- C6: start_recording performs the reset/identify handshake before
spawning the acquisition loop (whenever the spawn action occurs, it occurs
after the handshake in the performed action sequence), and whenever no
identify response is observed within the bounded window the serial port is
closed, no acquisition thread is started, and a STOPPED daemon remains
STOPPED. -/
theorem start_recording_guard (state : Nat) (openOk : Bool) (chars : List Char) :
    (handshakeGotResponse chars = false → openOk = true → state ≠ RUNNING →
      startRecording state openOk chars =
        (state, [SerialAction.openPort, SerialAction.handshake,
                 SerialAction.closePort])) ∧
    (state = STOPPED → handshakeGotResponse chars = false →
      (startRecording state openOk chars).1 = STOPPED) ∧
    (SerialAction.spawnAcquisition ∈ (startRecording state openOk chars).2 →
      (startRecording state openOk chars).2 =
        [SerialAction.openPort, SerialAction.handshake,
         SerialAction.spawnAcquisition]) := by
  refine ⟨fun hh ho hr => ?_, fun hs hh => ?_, fun hmem => ?_⟩
  · simp [startRecording, hh, ho, hr]
  · subst hs
    have hr : STOPPED ≠ RUNNING := by decide
    rcases openOk with _ | _ <;> simp [startRecording, hh, hr]
  · by_cases hr : state = RUNNING
    · simp [startRecording, hr] at hmem
    · rcases openOk with _ | _
      · simp [startRecording, hr] at hmem
      · by_cases hh : handshakeGotResponse chars
        · simp [startRecording, hr, hh]
        · simp [startRecording, hr, hh] at hmem

theorem start_recording_guard_witness :
    startRecording STOPPED true [] =
      (STOPPED, [SerialAction.openPort, SerialAction.handshake,
                 SerialAction.closePort]) ∧
    (startRecording STOPPED true []).1 = STOPPED := by
  refine ⟨?_, ?_⟩
  · exact (start_recording_guard STOPPED true []).1 (by decide) rfl (by decide)
  · exact (start_recording_guard STOPPED true []).2.1 rfl (by decide)

/-! ### C7 and C10: control protocol -/

theorem control_resp_terminator (line : List Char) (ovContOk : Bool) (resp : List Char)
    (h : (processClientCommand line ovContOk).1 = some resp) :
    "\n\n".toList <:+ resp := by
  simp only [processClientCommand] at h
  repeat' split at h
  all_goals simp only [Prod.fst] at h
  all_goals try (cases h)
  all_goals first
    | decide
    | · have s1 : "\n\n".toList <:+ ")\n\n".toList := by decide
        have s2 : ")\n\n".toList <:+ asciiLower (pyStrip line) ++ ")\n\n".toList :=
          List.suffix_append _ _
        have s3 : asciiLower (pyStrip line) ++ ")\n\n".toList <:+
            "ERROR unrecognized command (".toList ++
              (asciiLower (pyStrip line) ++ ")\n\n".toList) :=
          List.suffix_append _ _
        exact (s1.trans s2).trans s3

/-- C7: the control-protocol handler realises exactly the command table on
the trimmed, lowercased input line: the empty command answers OK, quit
answers with the close signal, start/stop/overview/overview-stop invoke
their callback and answer their exact OK response, overview-continuous and
overview-cont answer the exact HDF5-unavailable error when the callback
returns false, an unrecognized command answers the ERROR echo of the
normalized command, and every string response terminates with a blank
line. -/
theorem control_protocol_table (line : List Char) (ovContOk : Bool) :
    (asciiLower (pyStrip line) = [] →
      processClientCommand line ovContOk = (some "OK\n\n".toList, [])) ∧
    (asciiLower (pyStrip line) = "quit".toList →
      processClientCommand line ovContOk = (none, [])) ∧
    (asciiLower (pyStrip line) = "start".toList →
      processClientCommand line ovContOk =
        (some "OK starting new FITS file\n\n".toList, [CtlCall.start])) ∧
    (asciiLower (pyStrip line) = "stop".toList →
      processClientCommand line ovContOk =
        (some "OK stopping\n\n".toList, [CtlCall.stop])) ∧
    (asciiLower (pyStrip line) = "overview".toList →
      processClientCommand line ovContOk =
        (some "OK starting spectral overview\n\n".toList, [CtlCall.overviewOnce])) ∧
    ((asciiLower (pyStrip line) = "overview-continuous".toList ∨
      asciiLower (pyStrip line) = "overview-cont".toList) → ovContOk = false →
      processClientCommand line ovContOk =
        (some "ERROR HDF5 backend unavailable (install python3-h5py)\n\n".toList,
         [CtlCall.overviewCont])) ∧
    ((asciiLower (pyStrip line) = "overview-stop".toList ∨
      asciiLower (pyStrip line) = "overview-off".toList) →
      processClientCommand line ovContOk =
        (some "OK stopping continuous spectral overview\n\n".toList,
         [CtlCall.overviewOff])) ∧
    (asciiLower (pyStrip line) = "get".toList →
      processClientCommand line ovContOk =
        (some "ERROR no data (yet)\n\n".toList, [])) ∧
    (asciiLower (pyStrip line) ∉
        ([[], "quit".toList, "start".toList, "stop".toList, "overview".toList,
          "overview-continuous".toList, "overview-cont".toList,
          "overview-stop".toList, "overview-off".toList, "get".toList] :
          List (List Char)) →
      processClientCommand line ovContOk =
        (some ("ERROR unrecognized command (".toList ++ asciiLower (pyStrip line) ++
          ")\n\n".toList), [])) ∧
    (∀ resp, (processClientCommand line ovContOk).1 = some resp →
      "\n\n".toList <:+ resp) := by
  refine ⟨fun h => ?_, fun h => ?_, fun h => ?_, fun h => ?_, fun h => ?_,
    fun h ho => ?_, fun h => ?_, fun h => ?_, fun h => ?_,
    fun resp h => control_resp_terminator line ovContOk resp h⟩
  · simp only [processClientCommand]; rw [h]; cases ovContOk <;> decide
  · simp only [processClientCommand]; rw [h]; cases ovContOk <;> decide
  · simp only [processClientCommand]; rw [h]; cases ovContOk <;> decide
  · simp only [processClientCommand]; rw [h]; cases ovContOk <;> decide
  · simp only [processClientCommand]; rw [h]; cases ovContOk <;> decide
  · subst ho
    rcases h with h | h <;> (simp only [processClientCommand]; rw [h]; decide)
  · rcases h with h | h <;> (simp only [processClientCommand]; rw [h]; cases ovContOk <;> decide)
  · simp only [processClientCommand]; rw [h]; cases ovContOk <;> decide
  · simp only [List.mem_cons, List.not_mem_nil, not_or, or_false] at h
    obtain ⟨h1, h2, h3, h4, h5, h6, h7, h8, h9, h10⟩ := h
    simp only [processClientCommand, h1, h2, h3, h4, h5, h6, h7, h8, h9, h10]
    simp

theorem control_protocol_table_witness :
    processClientCommand "START\n".toList true =
      (some "OK starting new FITS file\n\n".toList, [CtlCall.start]) ∧
    processClientCommand "overview-cont".toList false =
      (some "ERROR HDF5 backend unavailable (install python3-h5py)\n\n".toList,
       [CtlCall.overviewCont]) ∧
    processClientCommand "bogus".toList true =
      (some "ERROR unrecognized command (bogus)\n\n".toList, []) := by
  refine ⟨?_, ?_, ?_⟩
  · exact (control_protocol_table "START\n".toList true).2.2.1 (by decide)
  · exact (control_protocol_table "overview-cont".toList false).2.2.2.2.2.1
      (Or.inr (by decide)) rfl
  · have h := (control_protocol_table "bogus".toList true).2.2.2.2.2.2.2.2.1 (by decide)
    simpa using h

/-- C10: the control-protocol handler returns the close signal exactly when
the trimmed, lowercased line equals quit; every other input produces a
string response (the embedded handler is a total function, so no exception
path exists); and the unrecognized-command response echoes the trimmed,
lowercased form of the input, as on the concrete input line with
surrounding spaces and uppercase letters. -/
theorem control_close_signal (line : List Char) (ovContOk : Bool) :
    ((processClientCommand line ovContOk).1 = none ↔
      asciiLower (pyStrip line) = "quit".toList) ∧
    (asciiLower (pyStrip line) ≠ "quit".toList →
      ∃ resp, (processClientCommand line ovContOk).1 = some resp) ∧
    processClientCommand " BOGUS ".toList ovContOk =
      (some "ERROR unrecognized command (bogus)\n\n".toList, []) := by
  have part1 : (processClientCommand line ovContOk).1 = none ↔
      asciiLower (pyStrip line) = "quit".toList := by
    constructor
    · intro h
      simp only [processClientCommand] at h
      repeat' split at h
      all_goals simp_all
    · intro h
      simp only [processClientCommand]
      rw [h]
      cases ovContOk <;> decide
  refine ⟨part1, fun h => ?_, by cases ovContOk <;> decide⟩
  exact Option.ne_none_iff_exists'.mp (fun hn => h (part1.mp hn))

theorem control_close_signal_witness :
    ∃ resp, (processClientCommand "HELP".toList true).1 = some resp := by
  exact (control_close_signal "HELP".toList true).2.1 (by decide)

/-! ### C1: hex-buffer decode and flush -/

theorem decodeHexGroups_group (g rest : List Char) (hg : g.length = 4) :
    decodeHexGroups (g ++ rest) = groupStep g ++ decodeHexGroups rest := by
  rcases g with _ | ⟨a, _ | ⟨b, _ | ⟨c, _ | ⟨d, _ | ⟨e, t⟩⟩⟩⟩⟩ <;> simp_all [decodeHexGroups]

theorem decode_whole_groups (l : List Char) :
    decodeHexGroups (l.take (l.length / 4 * 4)) = decodeHexGroups l := by
  suffices H : ∀ n (l : List Char), l.length ≤ n →
      decodeHexGroups (l.take (l.length / 4 * 4)) = decodeHexGroups l from
    H l.length l le_rfl
  intro n
  induction n with
  | zero =>
    intro l hl
    rcases l with _ | ⟨a, l⟩
    · rfl
    · simp at hl
  | succ n ih =>
    intro l hl
    rcases l with _ | ⟨a, _ | ⟨b, _ | ⟨c, _ | ⟨d, rest⟩⟩⟩⟩
    · rfl
    · simp [decodeHexGroups]
    · simp [decodeHexGroups]
    · simp [decodeHexGroups]
    · have hlen : (a :: b :: c :: d :: rest).length = rest.length + 4 := by
        simp only [List.length_cons]
      rw [hlen]
      have harith : (rest.length + 4) / 4 * 4 = rest.length / 4 * 4 + 4 := by omega
      rw [harith,
        show rest.length / 4 * 4 + 4 = (((rest.length / 4 * 4 + 1) + 1) + 1) + 1 from
          by omega,
        List.take_succ_cons, List.take_succ_cons, List.take_succ_cons,
        List.take_succ_cons]
      have hrest : rest.length ≤ n := by
        simp only [List.length_cons] at hl; omega
      calc decodeHexGroups (a :: b :: c :: d :: rest.take (rest.length / 4 * 4))
          = groupStep [a, b, c, d] ++
              decodeHexGroups (rest.take (rest.length / 4 * 4)) := by
            simp [decodeHexGroups]
        _ = groupStep [a, b, c, d] ++ decodeHexGroups rest := by
            rw [ih rest hrest]
        _ = decodeHexGroups (a :: b :: c :: d :: rest) := by simp [decodeHexGroups]

/-- C1: in the decode-and-flush step, only the whole 4-character groups of
the hex buffer are used (the trailing partial group is discarded); each
group is parsed with CPython int(group, 16); a group that fails to parse is
skipped without aborting the rest of the buffer; a parsed value of 0x2323
contributes no sample; every other parsed value contributes exactly the byte
(value >> 2) & 0xFF; and the flush emits a write exactly when the decoded
output buffer is non-empty, in which case the write carries that buffer. -/
theorem flush_data_spec (text : List Char) :
    (decodeHexGroups (text.take (text.length / 4 * 4)) = decodeHexGroups text) ∧
    (∀ g rest, g.length = 4 →
      (pyIntBase16 g = none →
        decodeHexGroups (g ++ rest) = decodeHexGroups rest) ∧
      (pyIntBase16 g = some 0x2323 →
        decodeHexGroups (g ++ rest) = decodeHexGroups rest) ∧
      (∀ v, pyIntBase16 g = some v → v ≠ 0x2323 →
        decodeHexGroups (g ++ rest) = byteOfVal v :: decodeHexGroups rest)) ∧
    (flushData text = none ↔ decodeHexGroups text = []) ∧
    (∀ out, flushData text = some out → out = decodeHexGroups text ∧ out ≠ []) := by
  refine ⟨decode_whole_groups text, fun g rest hg => ?_, ?_, ?_⟩
  · refine ⟨fun hp => ?_, fun hp => ?_, fun v hp hv => ?_⟩
    · rw [decodeHexGroups_group g rest hg]
      simp [groupStep, hp]
    · rw [decodeHexGroups_group g rest hg]
      simp [groupStep, hp]
    · rw [decodeHexGroups_group g rest hg]
      simp [groupStep, hp, hv]
  · by_cases ht : text = []
    · subst ht; simp [flushData, decodeHexGroups]
    · simp only [flushData, if_neg ht]
      by_cases hb : decodeHexGroups text = [] <;> simp [hb]
  · intro out h
    by_cases ht : text = []
    · subst ht; simp [flushData] at h
    · simp only [flushData, if_neg ht] at h
      by_cases hb : decodeHexGroups text = []
      · simp [hb] at h
      · simp [hb] at h
        exact ⟨h.symm, h ▸ hb⟩

theorem flush_data_spec_witness :
    decodeHexGroups ("2323".toList ++ "00ff".toList) = decodeHexGroups "00ff".toList ∧
    decodeHexGroups ("zzzz".toList ++ "00ff".toList) = decodeHexGroups "00ff".toList ∧
    decodeHexGroups ("00ff".toList ++ []) = byteOfVal 255 :: decodeHexGroups [] ∧
    (flushData "2323123".toList = none ↔ decodeHexGroups "2323123".toList = []) ∧
    ([63] = decodeHexGroups "00ff".toList ∧ ([63] : List Nat) ≠ []) := by
  refine ⟨?_, ?_, ?_, ?_, ?_⟩
  · exact ((flush_data_spec []).2.1 "2323".toList "00ff".toList (by decide)).2.1
      (by decide)
  · exact ((flush_data_spec []).2.1 "zzzz".toList "00ff".toList (by decide)).1
      (by decide)
  · exact ((flush_data_spec []).2.1 "00ff".toList [] (by decide)).2.2 255
      (by decide) (by decide)
  · exact (flush_data_spec "2323123".toList).2.2.1
  · exact (flush_data_spec "00ff".toList).2.2.2 [63] (by decide)

/-! ### C2: matrix reshape -/

theorem chunksOfFuel_spec {α : Type} (n : Nat) (hn : 0 < n) :
    ∀ (k fuel : Nat) (l : List α), l.length = k * n → l.length ≤ fuel →
      (chunksOfFuel n fuel l).length = k ∧
      (∀ r ∈ chunksOfFuel n fuel l, r.length = n) ∧
      (chunksOfFuel n fuel l).flatten = l := by
  intro k
  induction k with
  | zero =>
    intro fuel l hl _
    have : l = [] := List.length_eq_zero.mp (by omega)
    subst this
    rcases fuel with _ | fuel <;> simp [chunksOfFuel]
  | succ k ih =>
    intro fuel l hl hf
    have hlen : l.length = (k + 1) * n := hl
    have hpos : 0 < l.length := by
      have : n ≤ (k + 1) * n := Nat.le_mul_of_pos_left n (by omega)
      omega
    rcases l with _ | ⟨a, l⟩
    · simp at hpos
    rcases fuel with _ | fuel
    · simp at hf
    simp only [chunksOfFuel]
    have hkn : (k + 1) * n = k * n + n := Nat.succ_mul k n
    have hdrop : ((a :: l).drop n).length = k * n := by
      simp only [List.length_drop, List.length_cons] at hlen ⊢
      omega
    have hfuel : ((a :: l).drop n).length ≤ fuel := by
      simp only [List.length_drop, List.length_cons] at hf ⊢
      omega
    obtain ⟨ihlen, ihrows, ihflat⟩ := ih fuel ((a :: l).drop n) hdrop hfuel
    have htake : ((a :: l).take n).length = n := by
      rw [List.length_take]
      simp only [List.length_cons] at hlen ⊢
      have : n ≤ (k + 1) * n := Nat.le_mul_of_pos_left n (by omega)
      omega
    refine ⟨by simp [ihlen], ?_, ?_⟩
    · intro r hr
      rcases List.mem_cons.mp hr with h | h
      · rw [h]; exact htake
      · exact ihrows r h
    · rw [List.flatten_cons, ihflat, List.take_append_drop]

theorem chunksOf_spec {α : Type} (n k : Nat) (l : List α) (hn : 0 < n)
    (hl : l.length = k * n) :
    (chunksOf n l).length = k ∧
    (∀ r ∈ chunksOf n l, r.length = n) ∧
    (chunksOf n l).flatten = l := by
  rw [chunksOf, if_neg (by omega)]
  exact chunksOfFuel_spec n hn k l.length l hl le_rfl

theorem channelCount_pos (freqTable : List ℚ) (nchannels : Int) :
    0 < channelCount freqTable nchannels := by
  rw [channelCount]
  split
  · have : (1 : Int) ≤ max 1 nchannels := le_max_left 1 nchannels
    omega
  · exact lt_of_lt_of_le one_pos (le_max_left 1 freqTable.length)

/-- C2: the writer reshapes a raw byte buffer of length L with channel
count C (frequency-table length when the table is non-empty, otherwise the
configured channel count clamped to a minimum of 1): when L < C the output
matrix is a single row of L entries; otherwise it has exactly floor(L/C)
rows of C entries each and its content is the first floor(L/C)*C bytes of
the buffer, the trailing L mod C bytes being discarded. -/
theorem writer_matrix_shape (freqTable : List ℚ) (nchannels samplerate : Int)
    (buf : List Nat) (tsUs : Int) :
    (freqTable ≠ [] → channelCount freqTable nchannels = freqTable.length) ∧
    (buf.length < channelCount freqTable nchannels →
      (buildMatrixAndAxes freqTable nchannels samplerate buf tsUs).1 = [buf]) ∧
    (channelCount freqTable nchannels ≤ buf.length →
      (buildMatrixAndAxes freqTable nchannels samplerate buf tsUs).1.length =
        buf.length / channelCount freqTable nchannels ∧
      (∀ row ∈ (buildMatrixAndAxes freqTable nchannels samplerate buf tsUs).1,
        row.length = channelCount freqTable nchannels) ∧
      (buildMatrixAndAxes freqTable nchannels samplerate buf tsUs).1.flatten =
        buf.take (buf.length / channelCount freqTable nchannels *
          channelCount freqTable nchannels)) := by
  have hC := channelCount_pos freqTable nchannels
  refine ⟨fun hne => ?_, fun hlt => ?_, fun hge => ?_⟩
  · rw [channelCount, if_neg hne]
    have : 0 < freqTable.length := List.length_pos.mpr hne
    omega
  · simp only [buildMatrixAndAxes, if_pos hlt]
  · have hnlt : ¬buf.length < channelCount freqTable nchannels := not_lt.mpr hge
    simp only [buildMatrixAndAxes, if_neg hnlt]
    set C := channelCount freqTable nchannels with hCdef
    have htlen : (buf.take (buf.length / C * C)).length = buf.length / C * C := by
      rw [List.length_take]
      exact min_eq_left (Nat.div_mul_le_self _ _)
    exact chunksOf_spec C (buf.length / C) (buf.take (buf.length / C * C)) hC htlen

theorem writer_matrix_shape_witness :
    (buildMatrixAndAxes [] 3 1 [1, 2, 3, 4, 5, 6, 7] 10).1.length = 2 ∧
    (buildMatrixAndAxes [] 3 1 [1, 2] 10).1 = [[1, 2]] ∧
    (buildMatrixAndAxes [] 3 1 [1, 2, 3, 4, 5, 6, 7] 10).1.flatten =
      [1, 2, 3, 4, 5, 6] := by
  have h7 := (writer_matrix_shape ([] : List ℚ) 3 1 [1, 2, 3, 4, 5, 6, 7] 10).2.2
    (by decide)
  have h2 := (writer_matrix_shape ([] : List ℚ) 3 1 [1, 2] 10).2.1 (by decide)
  exact ⟨h7.1, h2, h7.2.2⟩

/-! ### C5: per-sweep timestamp axis -/

/-- C5 counterexample: the claim asks for a strictly increasing timestamp
axis for every sample rate the configuration accepts, but the configuration
places no upper bound on samplerate; at samplerate 2_000_000 the step
int(1_000_000 / samplerate) is 0 and a two-row buffer gets the constant
axis [0, 0], which is not strictly increasing. -/
theorem writer_timestamps_counterexample :
    (buildMatrixAndAxes [] 1 2000000 [0, 0] 0).2.2 = [0, 0] ∧
    ¬ ((buildMatrixAndAxes [] 1 2000000 [0, 0] 0).2.2.Sorted (· < ·)) := by
  refine ⟨by decide, ?_⟩
  have heq : (buildMatrixAndAxes [] 1 2000000 [0, 0] 0).2.2 = ([0, 0] : List Int) := by
    decide
  rw [heq]
  decide

/-- C5 amended: for sample rates between 1 and 1_000_000, the per-sweep
timestamp axis has one entry per matrix row, starts exactly at the buffer's
timestamp, every entry i equals the start plus i times the step
1_000_000 / samplerate (integer division), and the axis is strictly
increasing.  For larger sample rates the step is 0 and the entries repeat;
for nonpositive ones the divisor is clamped to 1. -/
theorem writer_timestamps (freqTable : List ℚ) (nchannels samplerate : Int)
    (buf : List Nat) (tsUs : Int)
    (h1 : 1 ≤ samplerate) (h2 : samplerate ≤ 1000000) :
    (buildMatrixAndAxes freqTable nchannels samplerate buf tsUs).2.2.length =
      (buildMatrixAndAxes freqTable nchannels samplerate buf tsUs).1.length ∧
    0 < (buildMatrixAndAxes freqTable nchannels samplerate buf tsUs).2.2.length ∧
    (buildMatrixAndAxes freqTable nchannels samplerate buf tsUs).2.2.getD 0 0 =
      tsUs ∧
    (∀ i < (buildMatrixAndAxes freqTable nchannels samplerate buf tsUs).2.2.length,
      (buildMatrixAndAxes freqTable nchannels samplerate buf tsUs).2.2.getD i 0 =
        tsUs + (i : Int) * ((1000000 : Int) / samplerate)) ∧
    (buildMatrixAndAxes freqTable nchannels samplerate buf tsUs).2.2.Sorted
      (· < ·) := by
  have hC := channelCount_pos freqTable nchannels
  have hmax : max 1 samplerate = samplerate := max_eq_right h1
  have hstep : 1 ≤ (1000000 : Int) / samplerate := by
    rw [Int.le_ediv_iff_mul_le (by omega)]
    omega
  have hT : (buildMatrixAndAxes freqTable nchannels samplerate buf tsUs).2.2 =
      (List.range
        (buildMatrixAndAxes freqTable nchannels samplerate buf tsUs).1.length).map
        (fun (i : Nat) => tsUs + (i : Int) * ((1000000 : Int) / max 1 samplerate)) :=
    rfl
  have hrows : 0 <
      (buildMatrixAndAxes freqTable nchannels samplerate buf tsUs).1.length := by
    simp only [buildMatrixAndAxes]
    split
    · simp
    · rename_i hge
      have htlen : (buf.take (buf.length / channelCount freqTable nchannels *
          channelCount freqTable nchannels)).length =
          buf.length / channelCount freqTable nchannels *
            channelCount freqTable nchannels := by
        rw [List.length_take]
        exact min_eq_left (Nat.div_mul_le_self _ _)
      rw [(chunksOf_spec (channelCount freqTable nchannels)
          (buf.length / channelCount freqTable nchannels) _ hC htlen).1]
      have := (Nat.one_le_div_iff hC).mpr (not_lt.mp hge)
      omega
  have hgetD : ∀ i <
      (buildMatrixAndAxes freqTable nchannels samplerate buf tsUs).1.length,
      (buildMatrixAndAxes freqTable nchannels samplerate buf tsUs).2.2.getD i 0 =
        tsUs + (i : Int) * ((1000000 : Int) / samplerate) := by
    intro i hi
    rw [hT, hmax]
    rw [List.getD_eq_getElem?_getD, List.getElem?_map, List.getElem?_range hi]
    simp
  refine ⟨by rw [hT]; simp, by rw [hT]; simpa using hrows,
    by simpa using hgetD 0 hrows, fun i hi => hgetD i (by simpa [hT] using hi), ?_⟩
  rw [hT, hmax]
  rw [List.Sorted, List.pairwise_map]
  refine (List.pairwise_lt_range _).imp ?_
  intro a b hab
  have : (a : Int) < (b : Int) := by exact_mod_cast hab
  have hmul : (a : Int) * ((1000000 : Int) / samplerate) <
      (b : Int) * ((1000000 : Int) / samplerate) :=
    mul_lt_mul_of_pos_right this (by omega)
  omega

theorem writer_timestamps_witness :
    (buildMatrixAndAxes [] 1 8000 [0, 0] 5).2.2.Sorted (· < ·) ∧
    (buildMatrixAndAxes [] 1 8000 [0, 0] 5).2.2.getD 0 0 = 5 := by
  exact ⟨(writer_timestamps [] 1 8000 [0, 0] 5 (by decide) (by decide)).2.2.2.2,
    (writer_timestamps [] 1 8000 [0, 0] 5 (by decide) (by decide)).2.2.1⟩

/-! ### C9: file rotation and empty-overview no-op -/

theorem fitsNewPath_lt (startUs tsUs : Int) (h : startUs + 1000000 ≤ tsUs) :
    fitsNewPath startUs < fitsNewPath tsUs := by
  have h1 : (startUs + 1 * 1000000) / 1000000 = startUs / 1000000 + 1 :=
    Int.add_mul_ediv_right startUs 1 (by omega)
  have h2 : (startUs + 1000000) / 1000000 ≤ tsUs / 1000000 :=
    Int.ediv_le_ediv (by omega) h
  rw [fitsNewPath, fitsNewPath]
  omega

/-- C9: for the writer's rotation state, a write whose timestamp is strictly
less than the clamped file period (in seconds) after the current file's
start leaves the rotation state untouched, so consecutive such writes reuse
the same path; a write at or after that period moves the start to the new
timestamp and installs a freshly generated path, distinct from the current
one; and saving an overview with an empty point set is a no-op returning
the unchanged rotation state and no write. -/
theorem rotation_spec (filetime : Int) (s : RotState) (tsUs : Int) :
    (∀ p, s.path = some p → 0 < s.start →
      ((tsUs : ℚ) - (s.start : ℚ)) / 1000000 < ((max 1 filetime : Int) : ℚ) →
      fitsRotateIfNeeded filetime s tsUs = s) ∧
    (s.path = some (fitsNewPath s.start) → 0 < s.start →
      ((tsUs : ℚ) - (s.start : ℚ)) / 1000000 ≥ ((max 1 filetime : Int) : ℚ) →
      (fitsRotateIfNeeded filetime s tsUs).path = some (fitsNewPath tsUs) ∧
      (fitsRotateIfNeeded filetime s tsUs).start = tsUs ∧
      fitsNewPath tsUs ≠ fitsNewPath s.start) ∧
    (∀ (points : List OVSItem) (tsEpoch : Int), points = [] →
      saveOverviewHdf5 filetime s points tsEpoch = (s, none)) := by
  refine ⟨fun p hp hs hlt => ?_, fun hp hs hge => ?_, fun points tsEpoch hpts => ?_⟩
  · rw [fitsRotateIfNeeded, if_neg (by simp [hp]; omega), if_neg (not_le.mpr hlt)]
  · rw [fitsRotateIfNeeded, if_neg (by simp [hp]; omega), if_pos hge]
    refine ⟨rfl, rfl, ?_⟩
    have hm : (1 : Int) ≤ max 1 filetime := le_max_left 1 filetime
    have hq : ((max 1 filetime : Int) : ℚ) * 1000000 ≤ (tsUs : ℚ) - (s.start : ℚ) := by
      rw [ge_iff_le, le_div_iff₀ (by norm_num)] at hge
      exact hge
    have hq2 : ((s.start + max 1 filetime * 1000000 : Int) : ℚ) ≤ ((tsUs : Int) : ℚ) := by
      push_cast at hq ⊢
      linarith
    have hint : s.start + max 1 filetime * 1000000 ≤ tsUs := by exact_mod_cast hq2
    have hbound : s.start + 1000000 ≤ tsUs := by
      have : (1 : Int) * 1000000 ≤ max 1 filetime * 1000000 :=
        mul_le_mul_of_nonneg_right hm (by omega)
      omega
    exact (fitsNewPath_lt s.start tsUs hbound).ne'
  · subst hpts
    rfl

theorem rotation_spec_witness :
    fitsRotateIfNeeded 60 ⟨some 1, 1000000, 5⟩ 2000000 = ⟨some 1, 1000000, 5⟩ ∧
    (fitsRotateIfNeeded 60 ⟨some 1, 1000000, 5⟩ 62000000).path =
      some (fitsNewPath 62000000) ∧
    fitsNewPath 62000000 ≠ fitsNewPath (1000000 : Int) ∧
    saveOverviewHdf5 60 ⟨some 1, 1000000, 5⟩ [] 17 = (⟨some 1, 1000000, 5⟩, none) := by
  have hreuse := (rotation_spec 60 ⟨some 1, 1000000, 5⟩ 2000000).1 1 rfl (by norm_num)
    (by norm_num)
  have hpath : (⟨some 1, 1000000, 5⟩ : RotState).path =
      some (fitsNewPath (⟨some 1, 1000000, 5⟩ : RotState).start) := by
    norm_num [fitsNewPath]
  have hrot := (rotation_spec 60 ⟨some 1, 1000000, 5⟩ 62000000).2.1 hpath (by norm_num)
    (by norm_num)
  have hov := (rotation_spec 60 ⟨some 1, 1000000, 5⟩ 62000000).2.2 [] 17 rfl
  exact ⟨hreuse, hrot.1, hrot.2.2, hov⟩

/-! ### C8: scheduler firing discipline -/

theorem schedCycle_mem (ts applied : List Nat) (c i : Nat) :
    i ∈ schedCycle ts applied c ↔
      i < ts.length ∧ i ∉ applied ∧ ts.getD i 0 ≤ c := by
  simp [schedCycle, List.mem_filter, List.mem_range, decide_eq_true_eq]

theorem schedRun_mem (ts : List Nat) :
    ∀ (clocks applied : List Nat) (i : Nat), i ∈ schedRun ts applied clocks →
      i < ts.length ∧ i ∉ applied := by
  intro clocks
  induction clocks with
  | nil =>
    intro applied i h
    simp [schedRun] at h
  | cons c cs ih =>
    intro applied i h
    simp only [schedRun, List.mem_append] at h
    rcases h with h | h
    · have := (schedCycle_mem ts applied c i).mp h
      exact ⟨this.1, this.2.1⟩
    · have := ih (applied ++ schedCycle ts applied c) i h
      exact ⟨this.1, fun hmem => this.2 (List.mem_append_left _ hmem)⟩

theorem schedCycle_sorted (ts applied : List Nat) (c : Nat) :
    List.Pairwise (· < ·) (schedCycle ts applied c) :=
  (List.pairwise_lt_range _).filter _

theorem sorted_getD_mono (ts : List Nat) (hs : List.Pairwise (· ≤ ·) ts)
    (i j : Nat) (hij : i ≤ j) (hj : j < ts.length) :
    ts.getD i 0 ≤ ts.getD j 0 := by
  have hi : i < ts.length := lt_of_le_of_lt hij hj
  rcases Nat.lt_or_ge i j with hlt | hge
  · have := (List.pairwise_iff_get.mp hs) ⟨i, hi⟩ ⟨j, hj⟩ hlt
    rwa [List.getD_eq_getElem?_getD, List.getElem?_eq_getElem hi,
      List.getD_eq_getElem?_getD, List.getElem?_eq_getElem hj]
  · have : i = j := by omega
    subst this
    exact le_rfl

theorem schedRun_sorted_idx (ts : List Nat) (hs : List.Pairwise (· ≤ ·) ts) :
    ∀ (clocks applied : List Nat),
      (∀ i j, i ≤ j → j ∈ applied → i ∈ applied) →
      List.Pairwise (· < ·) (schedRun ts applied clocks) := by
  intro clocks
  induction clocks with
  | nil =>
    intro applied _
    simp [schedRun]
  | cons c cs ih =>
    intro applied hdc
    simp only [schedRun]
    rw [List.pairwise_append]
    have hdc2 : ∀ i j, i ≤ j → j ∈ applied ++ schedCycle ts applied c →
        i ∈ applied ++ schedCycle ts applied c := by
      intro i j hij hj
      rcases List.mem_append.mp hj with hj | hj
      · exact List.mem_append_left _ (hdc i j hij hj)
      · have hjc := (schedCycle_mem ts applied c j).mp hj
        by_cases hia : i ∈ applied
        · exact List.mem_append_left _ hia
        · refine List.mem_append_right _
            ((schedCycle_mem ts applied c i).mpr ⟨by omega, hia, ?_⟩)
          exact le_trans (sorted_getD_mono ts hs i j hij hjc.1) hjc.2.2
    refine ⟨schedCycle_sorted ts applied c, ih _ hdc2, ?_⟩
    intro x hx y hy
    have hyn := schedRun_mem ts cs (applied ++ schedCycle ts applied c) y hy
    by_contra hlt
    push_neg at hlt
    exact hyn.2 (hdc2 y x hlt (List.mem_append_right _ hx))

theorem schedRun_nodup (ts : List Nat) :
    ∀ (clocks applied : List Nat), (schedRun ts applied clocks).Nodup := by
  intro clocks
  induction clocks with
  | nil =>
    intro applied
    simp [schedRun]
  | cons c cs ih =>
    intro applied
    simp only [schedRun]
    rw [List.nodup_append]
    refine ⟨(List.nodup_range _).filter _, ih _, ?_⟩
    intro x hx hx2
    exact (schedRun_mem ts cs (applied ++ schedCycle ts applied c) x hx2).2
      (List.mem_append_right _ hx)

/-- C8: over a run of the scheduler loop (modelled on the sorted list of
entry firing times and a list of per-cycle clock readings), every entry
fires at most once for the whole run, the fired entries are in ascending
order of their time-of-day field t, and an entry whose t is already reached
at the first check cycle fires in that very cycle. -/
theorem scheduler_spec (ts : List Nat) (clocks : List Nat)
    (hs : List.Pairwise (· ≤ ·) ts) :
    (schedRun ts [] clocks).Nodup ∧
    List.Pairwise (· ≤ ·) ((schedRun ts [] clocks).map (fun i => ts.getD i 0)) ∧
    (∀ c cs, clocks = c :: cs →
      (∀ i, i < ts.length → ts.getD i 0 ≤ c → i ∈ schedCycle ts [] c) ∧
      schedRun ts [] clocks =
        schedCycle ts [] c ++ schedRun ts (schedCycle ts [] c) cs) := by
  refine ⟨schedRun_nodup ts clocks [], ?_, fun c cs hcs => ⟨fun i hi hti => ?_, ?_⟩⟩
  · rw [List.pairwise_map]
    have hidx := schedRun_sorted_idx ts hs clocks [] (by simp)
    refine hidx.imp_of_mem ?_
    intro a b ha hb hab
    exact sorted_getD_mono ts hs a b (le_of_lt hab)
      (schedRun_mem ts clocks [] b hb).1
  · exact (schedCycle_mem ts [] c i).mpr ⟨hi, by simp, hti⟩
  · subst hcs
    rfl

theorem scheduler_spec_witness :
    (schedRun [10, 20] [] [15, 25]).Nodup ∧
    0 ∈ schedCycle [10, 20] [] 15 := by
  refine ⟨(scheduler_spec [10, 20] [15, 25] (by decide)).1, ?_⟩
  exact ((scheduler_spec [10, 20] [15, 25] (by decide)).2.2 15 [25] rfl).1 0
    (by decide) (by decide)

end Callisto
